import Mathlib

/-
  Verification of the fsalloc paging engine (psarna/fsalloc).

  Shallow embedding of src/fsalloc.h, src/fsalloc.cc, src/cpu_traits.h and the
  relevant parts of src/db_wrapper.cc.  The global mutable state of the C++
  module (gAllocations, gRegionCache, gRegionCacheCapacity, gStats, the kernel
  page-protection state, and the BerkeleyDB heap store) is modelled as an
  explicit record `FsState`; every operation is a pure function on it.
  Kernel- and store-visible side effects (mprotect, madvise(MADV_DONTNEED),
  mmap, munmap, db get/put/del, chaining to the saved default signal handler)
  are recorded in a reverse-chronological event log.
-/

/-- Linux PROT_NONE. -/
def PROT_NONE : Nat := 0
/-- Linux PROT_READ. -/
def PROT_READ : Nat := 1
/-- Linux PROT_WRITE. -/
def PROT_WRITE : Nat := 2

/-- Page shift of the reference architecture (x86-64): getpagesize() = 4096 = 2^12,
and `pageshift = ffs(kPagesize) - 1 = 12` (fsalloc.h line 109). -/
def kPageshift : Nat := 12

/-- `static const int kPagesize = getpagesize();` (fsalloc.h line 93). -/
def kPagesize : Nat := 2 ^ kPageshift

/-- `pagealign` (fsalloc.h lines 108-112), parametric in the page shift `s`:
`((intptr_t)ptr >> pageshift) << pageshift` on a non-negative address. -/
def pagealignP (s a : Nat) : Nat := (a >>> s) <<< s

/-- `sizealign` (fsalloc.h lines 115-117), parametric in the page size `P`:
`((size + kPagesize - 1) / kPagesize) * kPagesize` in uint32_t arithmetic
(`size` has type uint32_t, so every intermediate is reduced mod 2^32; the
subtraction never wraps because `size + P >= 1`). -/
def sizealignP (P size : Nat) : Nat := (size + P - 1) % 2 ^ 32 / P * P % 2 ^ 32

/-- `pagealign` at the reference page size. -/
def pagealign (a : Nat) : Nat := pagealignP kPageshift a

/-- `sizealign` at the reference page size. -/
def sizealign (size : Nat) : Nat := sizealignP kPagesize size

/-- `db::handle_t = DB_HEAP_RID` (db_wrapper.h line 9): `pgno` is a uint32,
`indx` a uint16. -/
structure RID where
  pgno : Nat
  indx : Nat
deriving DecidableEq, Repr

/-- `Info::invalid_handle` (fsalloc.cc lines 16-19): numeric limits of the two
fields. -/
def invalid_handle : RID := ⟨2 ^ 32 - 1, 2 ^ 16 - 1⟩

/-- Per-region metadata `Info` (fsalloc.h lines 62-78). -/
structure Info where
  rid : RID
  size : Nat
  dirty : Bool
  cached : Bool
deriving DecidableEq, Repr

/-- `Info::emptyInfo` (fsalloc.h lines 68-71). -/
def Info.emptyInfo (s : Nat) : Info := ⟨invalid_handle, s, false, true⟩

/-- `Info::valid` (fsalloc.h lines 73-75). -/
def Info.valid (i : Info) : Bool :=
  i.rid.pgno != invalid_handle.pgno || i.rid.indx != invalid_handle.indx

/-- The value-initialized `Info` produced by `std::unordered_map::operator[]`
when the key is absent: all fields zero. -/
def Info.zeroInfo : Info := ⟨⟨0, 0⟩, 0, false, false⟩

/-- Global statistics `Stats` (fsalloc.h lines 81-86). -/
structure Stats where
  allocs : Nat
  frees : Nat
  cache_hits : Nat
  writebacks : Nat
deriving DecidableEq, Repr

/-- Association-list lookup (model of `std::unordered_map::find`). -/
def lookupL {κ α : Type} [DecidableEq κ] (m : List (κ × α)) (a : κ) : Option α :=
  match m with
  | [] => none
  | (b, i) :: rest => if b = a then some i else lookupL rest a

/-- Association-list insert-or-assign (model of `map[k] = v`). -/
def insertL {κ α : Type} [DecidableEq κ] (m : List (κ × α)) (a : κ) (i : α) :
    List (κ × α) :=
  match m with
  | [] => [(a, i)]
  | (b, j) :: rest => if b = a then (a, i) :: rest else (b, j) :: insertL rest a i

/-- Association-list erase (model of `map.erase(k)`). -/
def eraseL {κ α : Type} [DecidableEq κ] (m : List (κ × α)) (a : κ) : List (κ × α) :=
  match m with
  | [] => []
  | (b, j) :: rest => if b = a then rest else (b, j) :: eraseL rest a

/-- Kernel- and store-visible side effects, logged reverse-chronologically. -/
inductive Event where
  | emmap (base size : Nat)
  | eprotect (base len flags : Nat)
  | ediscard (base len : Nat)
  | emunmap (base len : Nat)
  | edbputNew (rid : RID) (base size : Nat)
  | edbputAt (rid : RID) (base size : Nat)
  | edbget (rid : RID)
  | edbdel (rid : RID)
  | echain (sig : Nat)
deriving DecidableEq, Repr

/-- The whole mutable state of the module (fsalloc.cc lines 28-35) together
with the kernel protection map, the store contents, a fresh-RID counter for
`DB_APPEND`, and the event log. -/
structure FsState where
  alloc : List (Nat × Info)
  cache : List Nat
  capacity : Nat
  stats : Stats
  prot : List (Nat × Nat)
  store : List (RID × (Nat × Nat))
  nextPg : Nat
  events : List Event
deriving DecidableEq, Repr

/-- `protect` (fsalloc.cc lines 53-58): `mprotect(region, sizealign(size), flags)`. -/
def protectO (region size flags : Nat) (s : FsState) : FsState :=
  { s with prot := insertL s.prot region flags,
           events := Event.eprotect region (sizealign size) flags :: s.events }

/-- `forget` (fsalloc.cc lines 61-67): `madvise(region, sizealign(size),
MADV_DONTNEED)` followed by `protect(region, size, PROT_NONE)`. -/
def forget (region size : Nat) (s : FsState) : FsState :=
  protectO region size PROT_NONE
    { s with events := Event.ediscard region (sizealign size) :: s.events }

/-- `db::put(element, size)` (db_wrapper.cc lines 62-84): `DB_APPEND` allocates
a fresh heap RID and stores the bytes under it. -/
def dbPutNew (base size : Nat) (s : FsState) : RID × FsState :=
  (⟨s.nextPg, 0⟩,
   { s with store := insertL s.store ⟨s.nextPg, 0⟩ (base, size),
            nextPg := s.nextPg + 1,
            events := Event.edbputNew ⟨s.nextPg, 0⟩ base size :: s.events })

/-- `db::put(element, size, rid)` (db_wrapper.cc lines 86-119): overwrite the
entry at `rid`. -/
def dbPutAt (base size : Nat) (rid : RID) (s : FsState) : FsState :=
  { s with store := insertL s.store rid (base, size),
           events := Event.edbputAt rid base size :: s.events }

/-- `db::del(rid)` (db_wrapper.cc lines 121-136): delete, DB_NOTFOUND ignored. -/
def dbDel (rid : RID) (s : FsState) : FsState :=
  { s with store := eraseL s.store rid,
           events := Event.edbdel rid :: s.events }

/-- `fsalloc::writeback` (fsalloc.cc lines 69-100).  Note `Info &info =
gAllocations[addr]` uses `operator[]`, which value-initializes a fresh entry
when `addr` is not in the map.  The empty-queue case is the assertion
precondition at line 70; the model leaves the state unchanged there. -/
def writeback (s : FsState) : FsState :=
  match s.cache with
  | [] => s
  | addr :: rest =>
    let info0 := (lookupL s.alloc addr).getD Info.zeroInfo
    let info1 : Info := { info0 with cached := false }
    let s1 : FsState := { s with cache := rest, alloc := insertL s.alloc addr info1 }
    if info1.dirty = false then
      let s2 := forget addr info1.size s1
      { s2 with stats := { s2.stats with cache_hits := s2.stats.cache_hits + 1 } }
    else
      let s2 := protectO addr info1.size PROT_READ s1
      if info1.valid then
        let s3 := dbPutAt addr info1.size info1.rid s2
        let s4 : FsState :=
          { s3 with alloc := insertL s3.alloc addr { info1 with dirty := false } }
        let s5 := forget addr info1.size s4
        { s5 with stats := { s5.stats with writebacks := s5.stats.writebacks + 1 } }
      else
        let rs := dbPutNew addr info1.size s2
        let rid := rs.1
        let s3 := rs.2
        let s4 : FsState :=
          { s3 with alloc := insertL s3.alloc addr { info1 with rid := rid, dirty := false } }
        let s5 := forget addr info1.size s4
        { s5 with stats := { s5.stats with writebacks := s5.stats.writebacks + 1 } }

/-- `cacheRegion` (fsalloc.cc lines 38-44): push to the back of the queue,
write one region back if the size now exceeds the capacity. -/
def cacheRegion (addr : Nat) (s : FsState) : FsState :=
  let s1 : FsState := { s with cache := s.cache ++ [addr] }
  if s1.capacity < s1.cache.length then writeback s1 else s1

/-- `fsalloc::fsalloc` (fsalloc.cc lines 106-120).  `mmap` is modelled by the
caller-supplied fresh page-aligned address `addr`, reserved with PROT_NONE. -/
def fsalloc (addr size : Nat) (s : FsState) : Nat × FsState :=
  let s1 : FsState := { s with prot := insertL s.prot addr PROT_NONE,
                               events := Event.emmap addr size :: s.events }
  let s2 : FsState := { s1 with alloc := insertL s1.alloc addr (Info.emptyInfo size) }
  let s3 := cacheRegion addr s2
  (addr, { s3 with stats := { s3.stats with allocs := s3.stats.allocs + 1 } })

/-- `fsalloc::fsfree` (fsalloc.cc lines 122-139).  Note `gStats.frees++` sits
outside the `if`, so it runs even when `addr` is unknown. -/
def fsfree (addr : Nat) (s : FsState) : FsState :=
  match lookupL s.alloc addr with
  | some info =>
    let s1 := dbDel info.rid s
    let s2 : FsState :=
      { s1 with events := Event.emunmap addr (sizealign info.size) :: s1.events,
                prot := eraseL s1.prot addr }
    let s3 : FsState := { s2 with alloc := eraseL s2.alloc addr }
    { s3 with stats := { s3.stats with frees := s3.stats.frees + 1 } }
  | none =>
    { s with stats := { s.stats with frees := s.stats.frees + 1 } }

/-- The machine context handed to the handler: the error-code field
`uc_mcontext.gregs[REG_ERR]` and all remaining fields (never consumed). -/
structure MContext where
  err : Nat
  gregsOther : List Nat
deriving DecidableEq, Repr

/-- `x86_64::get_mprotect_flags` (cpu_traits.h lines 12-23). -/
def get_mprotect_flags (ctx : MContext) : Nat :=
  if ctx.err &&& 0x2 ≠ 0 then PROT_READ ||| PROT_WRITE else PROT_READ

/-- Truncation of a mathematical integer to a 32-bit signed int. -/
def toInt32 (x : Int) : Int := (x + 2 ^ 31) % 2 ^ 32 - 2 ^ 31

/-- Reinterpretation of a 32-bit signed int as uint32_t. -/
def toUInt32c (x : Int) : Int := x % 2 ^ 32

/-- `verify` (fsalloc.cc lines 47-50): `int dist = std::distance(region, addr);
return dist >= 0 && static_cast<uint32_t>(dist) <= size;`. -/
def verify (region addr size : Nat) : Bool :=
  let dist := toInt32 ((addr : Int) - (region : Int))
  decide (0 ≤ dist) && decide (toUInt32c dist ≤ (size : Int))

/-- The tail of `handler` from the `// Filling with contents from db` comment
on (fsalloc.cc lines 163-175): optional load from the store, mark cached,
admit to the queue, final protect. -/
def materialize (region : Nat) (info : Info) (flags : Nat) (s : FsState) : FsState :=
  let s1 :=
    if info.valid then
      let sA := protectO region info.size (PROT_READ ||| PROT_WRITE) s
      { sA with events := Event.edbget info.rid :: sA.events }
    else s
  let info1 : Info := { info with cached := true }
  let s2 : FsState := { s1 with alloc := insertL s1.alloc region info1 }
  let s3 := cacheRegion region s2
  protectO region info1.size flags s3

/-- `handler` (fsalloc.cc lines 142-179).  Note that after chaining to the
saved default handler at line 152 the code does not return: execution falls
through and keeps handling the fault. -/
def handler (sig va : Nat) (ctx : MContext) (s : FsState) : FsState :=
  let region := pagealign va
  match lookupL s.alloc region with
  | some info =>
    let s1 := if verify region va info.size then s
              else { s with events := Event.echain sig :: s.events }
    let flags := get_mprotect_flags ctx
    if flags &&& PROT_WRITE ≠ 0 then
      let info1 : Info := { info with dirty := true }
      let s2 : FsState := { s1 with alloc := insertL s1.alloc region info1 }
      if info1.cached then protectO region info1.size flags s2
      else materialize region info1 flags s2
    else materialize region info flags s1
  | none => { s with events := Event.echain sig :: s.events }

/-- The state right after `fsalloc::init(path, capacity)` (fsalloc.cc lines
181-195): empty tables, zeroed statistics, fresh store. -/
def initState (capacity : Nat) : FsState :=
  { alloc := [], cache := [], capacity := capacity, stats := ⟨0, 0, 0, 0⟩,
    prot := [], store := [], nextPg := 1, events := [] }

/-- A mutator operation, for reasoning about whole executions. -/
inductive Op where
  | opAlloc (addr size : Nat)
  | opFree (addr : Nat)
  | opFault (sig va : Nat) (ctx : MContext)
  | opWb
deriving Repr

/-- One mutator step. -/
def step (o : Op) (s : FsState) : FsState :=
  match o with
  | .opAlloc a sz => (fsalloc a sz s).2
  | .opFree a => fsfree a s
  | .opFault sig va ctx => handler sig va ctx s
  | .opWb => writeback s

/-- A whole execution. -/
def run (ops : List Op) (s : FsState) : FsState := ops.foldl (fun t o => step o t) s

/-! ### Association-list lemmas -/

theorem lookupL_insertL_self {κ α : Type} [DecidableEq κ] (m : List (κ × α)) (a : κ)
    (i : α) : lookupL (insertL m a i) a = some i := by
  induction m with
  | nil => simp [insertL, lookupL]
  | cons p rest ih =>
    obtain ⟨b, j⟩ := p
    by_cases h : b = a
    · simp [insertL, lookupL, h]
    · simp [insertL, lookupL, h, ih]

theorem lookupL_insertL_ne {κ α : Type} [DecidableEq κ] (m : List (κ × α)) (a b : κ)
    (i : α) (h : b ≠ a) : lookupL (insertL m a i) b = lookupL m b := by
  induction m with
  | nil =>
    show (if a = b then some i else none) = none
    rw [if_neg fun hab => h hab.symm]
  | cons p rest ih =>
    obtain ⟨c, j⟩ := p
    show lookupL (if c = a then (a, i) :: rest else (c, j) :: insertL rest a i) b
        = (if c = b then some j else lookupL rest b)
    by_cases hc : c = a
    · rw [if_pos hc]
      show (if a = b then some i else lookupL rest b) = _
      rw [if_neg fun hab => h hab.symm, if_neg (hc ▸ fun hcb => h hcb.symm)]
    · rw [if_neg hc]
      show (if c = b then some j else lookupL (insertL rest a i) b) = _
      by_cases hcb : c = b
      · rw [if_pos hcb, if_pos hcb]
      · rw [if_neg hcb, if_neg hcb, ih]

/-! ### Arithmetic facts about the alignment helpers (claim C10) -/

theorem sizealignP_eq (P size : Nat) (h : size + P - 1 < 2 ^ 32) :
    sizealignP P size = (size + P - 1) / P * P := by
  unfold sizealignP
  rw [Nat.mod_eq_of_lt h, Nat.mod_eq_of_lt (lt_of_le_of_lt (Nat.div_mul_le_self _ _) h)]

theorem ceil_le (P size : Nat) (hP : 0 < P) : size ≤ (size + P - 1) / P * P := by
  rcases Nat.eq_zero_or_pos (size % P) with hr | hr
  · have hd := Nat.div_add_mod size P
    rw [hr, Nat.add_zero] at hd
    have he : size + P - 1 = P - 1 + P * (size / P) := by omega
    rw [he, Nat.add_mul_div_left _ _ hP, Nat.div_eq_of_lt (by omega), Nat.zero_add,
      Nat.mul_comm]
    omega
  · have hd := Nat.div_add_mod size P
    have hm : size % P < P := Nat.mod_lt _ hP
    have he : size + P - 1 = size % P - 1 + P * (size / P + 1) := by
      rw [Nat.mul_add, Nat.mul_one]
      omega
    rw [he, Nat.add_mul_div_left _ _ hP, Nat.div_eq_of_lt (by omega), Nat.zero_add,
      Nat.add_mul, Nat.one_mul, Nat.mul_comm]
    omega

theorem ceil_mod (P size : Nat) : (size + P - 1) / P * P % P = 0 := Nat.mul_mod_left _ _

theorem ceil_least (P size m : Nat) (hP : 0 < P) (hm : size ≤ m) (hmod : m % P = 0) :
    (size + P - 1) / P * P ≤ m := by
  rcases Nat.eq_zero_or_pos (size % P) with hr | hr
  · have hd := Nat.div_add_mod size P
    rw [hr, Nat.add_zero] at hd
    have he : size + P - 1 = P - 1 + P * (size / P) := by omega
    rw [he, Nat.add_mul_div_left _ _ hP, Nat.div_eq_of_lt (by omega), Nat.zero_add,
      Nat.mul_comm]
    omega
  · have hd := Nat.div_add_mod size P
    have hmm := Nat.div_add_mod m P
    rw [hmod, Nat.add_zero] at hmm
    have hmP : size % P < P := Nat.mod_lt _ hP
    have he : size + P - 1 = size % P - 1 + P * (size / P + 1) := by
      rw [Nat.mul_add, Nat.mul_one]
      omega
    rw [he, Nat.add_mul_div_left _ _ hP, Nat.div_eq_of_lt (by omega), Nat.zero_add]
    have hqlt : size / P < m / P := by
      rw [Nat.lt_div_iff_mul_lt (Nat.dvd_of_mod_eq_zero hmod) _]
      omega
    calc (size / P + 1) * P = P * (size / P + 1) := Nat.mul_comm _ _
      _ ≤ P * (m / P) := Nat.mul_le_mul_left _ hqlt
      _ = m := hmm

theorem pagealignP_eq (s a : Nat) : pagealignP s a = a / 2 ^ s * 2 ^ s := by
  unfold pagealignP
  rw [Nat.shiftRight_eq_div_pow, Nat.shiftLeft_eq]

theorem pagealignP_le (s a : Nat) : pagealignP s a ≤ a := by
  rw [pagealignP_eq]
  exact Nat.div_mul_le_self _ _

theorem pagealignP_mod (s a : Nat) : pagealignP s a % 2 ^ s = 0 := by
  rw [pagealignP_eq]
  exact Nat.mul_mod_left _ _

theorem pagealignP_sub_lt (s a : Nat) : a - pagealignP s a < 2 ^ s := by
  rw [pagealignP_eq]
  have h1 := Nat.div_add_mod a (2 ^ s)
  have h2 : a % 2 ^ s < 2 ^ s := Nat.mod_lt _ (Nat.pos_pow_of_pos s (by omega))
  rw [Nat.mul_comm]
  generalize 2 ^ s * (a / 2 ^ s) = t at h1 ⊢
  generalize a % 2 ^ s = r at h1 h2
  generalize 2 ^ s = p at h2 ⊢
  omega

theorem pagealignP_greatest (s a m : Nat) (hmod : m % 2 ^ s = 0) (hm : m ≤ a) :
    m ≤ pagealignP s a := by
  rw [pagealignP_eq]
  have hmm : m / 2 ^ s * 2 ^ s = m := Nat.div_mul_cancel (Nat.dvd_of_mod_eq_zero hmod)
  calc m = m / 2 ^ s * 2 ^ s := hmm.symm
    _ ≤ a / 2 ^ s * 2 ^ s := Nat.mul_le_mul_right _ (Nat.div_le_div_right hm)

theorem pagealignP_idem (s a : Nat) : pagealignP s (pagealignP s a) = pagealignP s a := by
  rw [pagealignP_eq, pagealignP_eq, Nat.mul_div_cancel _ (Nat.pos_pow_of_pos s (by omega))]

/-- C10: for every page shift `s` (page size `2^s`) and every `size` with
`size + pagesize - 1` representable in uint32, `sizealign size` is the least
multiple of the page size that is `≥ size`, and is idempotent; `pagealign a`
is the greatest multiple of the page size that is `≤ a`, is idempotent, and
`a - pagealign a < pagesize`. -/
theorem align_spec (s a size : Nat) (h : size + 2 ^ s - 1 < 2 ^ 32) :
    (size ≤ sizealignP (2 ^ s) size ∧
     sizealignP (2 ^ s) size % 2 ^ s = 0 ∧
     (∀ m, size ≤ m → m % 2 ^ s = 0 → sizealignP (2 ^ s) size ≤ m) ∧
     sizealignP (2 ^ s) (sizealignP (2 ^ s) size) = sizealignP (2 ^ s) size) ∧
    (pagealignP s a ≤ a ∧
     pagealignP s a % 2 ^ s = 0 ∧
     (∀ m, m % 2 ^ s = 0 → m ≤ a → m ≤ pagealignP s a) ∧
     pagealignP s (pagealignP s a) = pagealignP s a ∧
     a - pagealignP s a < 2 ^ s) := by
  have hP : 0 < 2 ^ s := Nat.pos_pow_of_pos s (by omega)
  have hs32 : s ≤ 32 := by
    by_contra hgt
    have : 2 ^ 32 < 2 ^ s := Nat.pow_lt_pow_right (by omega) (by omega)
    omega
  have hA := sizealignP_eq (2 ^ s) size h
  have hle := ceil_le (2 ^ s) size hP
  have hmod0 : sizealignP (2 ^ s) size % 2 ^ s = 0 := by
    rw [hA]
    exact ceil_mod _ _
  refine ⟨⟨by rw [hA]; exact hle, hmod0, ?_, ?_⟩,
    pagealignP_le s a, pagealignP_mod s a,
    fun m hm hmod => pagealignP_greatest s a m hm hmod,
    pagealignP_idem s a, pagealignP_sub_lt s a⟩
  · intro m hm hmod
    rw [hA]
    exact ceil_least _ _ _ hP hm hmod
  · have hub : sizealignP (2 ^ s) size ≤ size + 2 ^ s - 1 := by
      rw [hA]
      exact Nat.div_mul_le_self _ _
    have hdvd : 2 ^ s ∣ 2 ^ 32 := Nat.pow_dvd_pow 2 hs32
    have hAlt : sizealignP (2 ^ s) size < 2 ^ 32 := lt_of_le_of_lt hub h
    have hfloor : sizealignP (2 ^ s) size + 2 ^ s ≤ 2 ^ 32 := by
      have hk : sizealignP (2 ^ s) size = sizealignP (2 ^ s) size / 2 ^ s * 2 ^ s :=
        (Nat.div_mul_cancel (Nat.dvd_of_mod_eq_zero hmod0)).symm
      have h32 : 2 ^ 32 = 2 ^ 32 / 2 ^ s * 2 ^ s :=
        (Nat.div_mul_cancel hdvd).symm
      have hql : sizealignP (2 ^ s) size / 2 ^ s < 2 ^ 32 / 2 ^ s := by
        by_contra hge
        have := Nat.mul_le_mul_right (2 ^ s) (Nat.le_of_not_lt hge)
        omega
      have := Nat.mul_le_mul_right (2 ^ s) hql
      rw [Nat.succ_mul] at this
      omega
    have h2 : sizealignP (2 ^ s) size + 2 ^ s - 1 < 2 ^ 32 := by omega
    rw [sizealignP_eq (2 ^ s) _ h2]
    refine Nat.le_antisymm ?_ ?_
    · exact ceil_least _ _ _ hP (Nat.le_refl _) hmod0
    · exact ceil_le _ _ hP

/-- C10 witness: the theorem instantiated at page shift 12 (page size 4096),
address 10000, size 5. -/
theorem align_spec_witness :
    (5 + 2 ^ 12 - 1 < 2 ^ 32) ∧
    ((5 ≤ sizealignP (2 ^ 12) 5 ∧
      sizealignP (2 ^ 12) 5 % 2 ^ 12 = 0 ∧
      (∀ m, 5 ≤ m → m % 2 ^ 12 = 0 → sizealignP (2 ^ 12) 5 ≤ m) ∧
      sizealignP (2 ^ 12) (sizealignP (2 ^ 12) 5) = sizealignP (2 ^ 12) 5) ∧
     (pagealignP 12 10000 ≤ 10000 ∧
      pagealignP 12 10000 % 2 ^ 12 = 0 ∧
      (∀ m, m % 2 ^ 12 = 0 → m ≤ 10000 → m ≤ pagealignP 12 10000) ∧
      pagealignP 12 (pagealignP 12 10000) = pagealignP 12 10000 ∧
      10000 - pagealignP 12 10000 < 2 ^ 12)) :=
  ⟨by decide, align_spec 12 10000 5 (by decide)⟩

/-! ### Claim C9: the fault-context decoder -/

theorem and_two_ne_zero (n : Nat) : (n &&& 2 ≠ 0) ↔ Nat.testBit n 1 := by
  have h := Nat.and_two_pow n 1
  rw [pow_one] at h
  cases hb : Nat.testBit n 1 <;> simp [hb] at h <;> simp [h]

/-- C9: the decoder classifies the access as Write (PROT_READ|PROT_WRITE)
exactly when bit 1 (mask 0x2) of the context's error-code field is set, and
as Read (PROT_READ) otherwise; no other field of the context affects the
result. -/
theorem get_mprotect_flags_spec :
    (∀ ctx : MContext,
       get_mprotect_flags ctx =
         if Nat.testBit ctx.err 1 then PROT_READ ||| PROT_WRITE else PROT_READ) ∧
    (∀ c₁ c₂ : MContext, c₁.err = c₂.err →
       get_mprotect_flags c₁ = get_mprotect_flags c₂) := by
  constructor
  · intro ctx
    unfold get_mprotect_flags
    by_cases hb : Nat.testBit ctx.err 1
    · rw [if_pos ((and_two_ne_zero ctx.err).mpr hb), if_pos hb]
    · rw [if_neg (fun hc => hb ((and_two_ne_zero ctx.err).mp hc)), if_neg hb]
  · intro c₁ c₂ h
    unfold get_mprotect_flags
    rw [h]

/-- C9 witness: two contexts with equal error codes but different remaining
fields decode identically. -/
theorem get_mprotect_flags_spec_witness :
    get_mprotect_flags ⟨6, [0]⟩ = get_mprotect_flags ⟨6, [5, 7]⟩ :=
  get_mprotect_flags_spec.2 ⟨6, [0]⟩ ⟨6, [5, 7]⟩ rfl

/-! ### Claim C1: write-back popping a freed (absent) region -/

/-- A state whose Resident Queue head 4096 has no Allocation Table entry
(a region freed while still enqueued). -/
def c1State : FsState := { initState 4 with cache := [4096] }

/-- C1 (code_bug evidence): at a state whose queue head is a freed address,
`writeback` does NOT leave the Allocation Table unchanged and does NOT leave
`cache_hits` unchanged: `gAllocations[addr]` (operator[]) inserts a
value-initialized entry for the freed address, and the clean path then charges
`cache_hits`.  The spec (§4.5.3 step 2 and §4.5 free) requires skipping
silently without charging any counter. -/
theorem writeback_freed_head_bug :
    lookupL c1State.alloc 4096 = none ∧
    (writeback c1State).cache = [] ∧
    lookupL (writeback c1State).alloc 4096 = some Info.zeroInfo ∧
    (writeback c1State).stats.cache_hits = c1State.stats.cache_hits + 1 ∧
    (writeback c1State).stats.writebacks = c1State.stats.writebacks ∧
    (writeback c1State).store = c1State.store := by decide

/-! ### Claim C2: fault outside the logical extent of an owned page -/

/-- A state owning region 4096 of logical size 1 (resident, clean). -/
def c2State : FsState :=
  { initState 4 with alloc := [(4096, ⟨invalid_handle, 1, false, true⟩)],
                     cache := [4096] }

/-- C2 (code_bug evidence): for a fault at va = 4098, outside
[4096, 4096 + 1), the handler chains to the saved default handler but —
lacking a `return` after the call (fsalloc.cc line 152) — falls through and
keeps handling the fault: it sets `dirty` and changes the page protection.
Moreover `verify` uses `dist <= size`, so va = 4097 (= base + size, also
outside the half-open interval) is not chained at all. -/
theorem handler_out_of_range_fallthrough :
    verify 4096 4098 1 = false ∧
    (handler 11 4098 ⟨2, []⟩ c2State).events =
      [Event.eprotect 4096 4096 3, Event.echain 11] ∧
    lookupL (handler 11 4098 ⟨2, []⟩ c2State).alloc 4096 =
      some ⟨invalid_handle, 1, true, true⟩ ∧
    lookupL (handler 11 4098 ⟨2, []⟩ c2State).prot 4096 = some 3 ∧
    verify 4096 4097 1 = true := by decide

/-! ### Claim C3: free of an unknown address -/

/-- C3 counterexample: the claim says the `frees` counter is unchanged when
`free` is called on an address absent from the Allocation Table; the code
increments it unconditionally (fsalloc.cc line 138). -/
theorem fsfree_missing_changes_frees :
    ¬ (fsfree 4096 (initState 4)).stats.frees = (initState 4).stats.frees := by decide

/-- C3 amended: `free(addr)` for `addr` not in the Allocation Table leaves the
Allocation Table, the Resident Queue, the backing store, the protection map
and the event log unchanged, and increments exactly the `frees` counter. -/
theorem fsfree_missing_only_frees (addr : Nat) (s : FsState)
    (h : lookupL s.alloc addr = none) :
    fsfree addr s = { s with stats := { s.stats with frees := s.stats.frees + 1 } } := by
  unfold fsfree
  rw [h]

/-- C3 witness: the amended theorem at a concrete state. -/
theorem fsfree_missing_only_frees_witness :
    lookupL (initState 4).alloc 4096 = none ∧
    fsfree 4096 (initState 4) =
      { initState 4 with stats := { (initState 4).stats with
                                     frees := (initState 4).stats.frees + 1 } } :=
  ⟨by decide, fsfree_missing_only_frees 4096 (initState 4) (by decide)⟩


/-! ### Write-back characterization -/

theorem insertL_insertL {κ α : Type} [DecidableEq κ] (m : List (κ × α)) (a : κ)
    (i j : α) : insertL (insertL m a i) a j = insertL m a j := by
  induction m with
  | nil => simp [insertL]
  | cons p rest ih =>
    obtain ⟨c, k⟩ := p
    by_cases hc : c = a
    · simp [insertL, hc]
    · simp [insertL, hc, ih]

theorem writeback_clean_eq (s : FsState) (a : Nat) (rest : List Nat) (info : Info)
    (hq : s.cache = a :: rest) (hl : lookupL s.alloc a = some info)
    (hd : info.dirty = false) :
    writeback s =
      { s with cache := rest,
               alloc := insertL s.alloc a { info with cached := false },
               prot := insertL s.prot a PROT_NONE,
               stats := { s.stats with cache_hits := s.stats.cache_hits + 1 },
               events := Event.eprotect a (sizealign info.size) PROT_NONE ::
                         Event.ediscard a (sizealign info.size) :: s.events } := by
  unfold writeback
  rw [hq]
  simp [hl, hd, forget, protectO]

theorem writeback_dirty_valid_eq (s : FsState) (a : Nat) (rest : List Nat)
    (info : Info) (hq : s.cache = a :: rest) (hl : lookupL s.alloc a = some info)
    (hd : info.dirty = true) (hv : info.valid = true) :
    writeback s =
      { s with cache := rest,
               alloc := insertL s.alloc a { info with cached := false, dirty := false },
               prot := insertL s.prot a PROT_NONE,
               store := insertL s.store info.rid (a, info.size),
               stats := { s.stats with writebacks := s.stats.writebacks + 1 },
               events := Event.eprotect a (sizealign info.size) PROT_NONE ::
                         Event.ediscard a (sizealign info.size) ::
                         Event.edbputAt info.rid a info.size ::
                         Event.eprotect a (sizealign info.size) PROT_READ ::
                         s.events } := by
  unfold writeback
  rw [hq]
  have hv1 : (info.rid.pgno != invalid_handle.pgno
      || info.rid.indx != invalid_handle.indx) = true := by
    simpa [Info.valid] using hv
  simp [hl, hd, Info.valid, hv1, forget, protectO, dbPutAt, insertL_insertL]

theorem writeback_dirty_invalid_eq (s : FsState) (a : Nat) (rest : List Nat)
    (info : Info) (hq : s.cache = a :: rest) (hl : lookupL s.alloc a = some info)
    (hd : info.dirty = true) (hv : info.valid = false) :
    writeback s =
      { s with cache := rest,
               alloc := insertL s.alloc a
                 { info with rid := ⟨s.nextPg, 0⟩, cached := false, dirty := false },
               prot := insertL s.prot a PROT_NONE,
               store := insertL s.store ⟨s.nextPg, 0⟩ (a, info.size),
               nextPg := s.nextPg + 1,
               stats := { s.stats with writebacks := s.stats.writebacks + 1 },
               events := Event.eprotect a (sizealign info.size) PROT_NONE ::
                         Event.ediscard a (sizealign info.size) ::
                         Event.edbputNew ⟨s.nextPg, 0⟩ a info.size ::
                         Event.eprotect a (sizealign info.size) PROT_READ ::
                         s.events } := by
  unfold writeback
  rw [hq]
  have hv1 : (info.rid.pgno != invalid_handle.pgno
      || info.rid.indx != invalid_handle.indx) = false := by
    simpa [Info.valid] using hv
  simp [hl, hd, Info.valid, hv1, forget, protectO, dbPutNew, insertL_insertL]

/-- The state produced by `operator[]` on a missing key: zombie entry, clean
path, `cache_hits` charged. -/
theorem writeback_missing_eq (s : FsState) (a : Nat) (rest : List Nat)
    (hq : s.cache = a :: rest) (hl : lookupL s.alloc a = none) :
    writeback s =
      { s with cache := rest,
               alloc := insertL s.alloc a Info.zeroInfo,
               prot := insertL s.prot a PROT_NONE,
               stats := { s.stats with cache_hits := s.stats.cache_hits + 1 },
               events := Event.eprotect a (sizealign 0) PROT_NONE ::
                         Event.ediscard a (sizealign 0) :: s.events } := by
  unfold writeback
  rw [hq]
  simp [hl, Info.zeroInfo, forget, protectO]

/-- Fields of the state that `writeback` never changes, and the queue pop. -/
theorem writeback_frame (s : FsState) :
    (writeback s).cache = s.cache.tail ∧
    (writeback s).capacity = s.capacity ∧
    (writeback s).stats.allocs = s.stats.allocs ∧
    (writeback s).stats.frees = s.stats.frees := by
  cases hq : s.cache with
  | nil => simp [writeback, hq]
  | cons a rest =>
    cases hl : lookupL s.alloc a with
    | none =>
      rw [writeback_missing_eq s a rest hq hl]
      exact ⟨rfl, rfl, rfl, rfl⟩
    | some info =>
      cases hd : info.dirty with
      | false =>
        rw [writeback_clean_eq s a rest info hq hl hd]
        exact ⟨rfl, rfl, rfl, rfl⟩
      | true =>
        cases hv : info.valid with
        | false =>
          rw [writeback_dirty_invalid_eq s a rest info hq hl hd hv]
          exact ⟨rfl, rfl, rfl, rfl⟩
        | true =>
          rw [writeback_dirty_valid_eq s a rest info hq hl hd hv]
          exact ⟨rfl, rfl, rfl, rfl⟩

/-- `writeback` only touches the Allocation Table entry of the popped head. -/
theorem writeback_lookup_ne (s : FsState) (a b : Nat) (rest : List Nat)
    (hq : s.cache = a :: rest) (hb : b ≠ a) :
    lookupL (writeback s).alloc b = lookupL s.alloc b := by
  cases hl : lookupL s.alloc a with
  | none =>
    rw [writeback_missing_eq s a rest hq hl]
    exact lookupL_insertL_ne _ _ _ _ hb
  | some info =>
    cases hd : info.dirty with
    | false =>
      rw [writeback_clean_eq s a rest info hq hl hd]
      exact lookupL_insertL_ne _ _ _ _ hb
    | true =>
      cases hv : info.valid with
      | false =>
        rw [writeback_dirty_invalid_eq s a rest info hq hl hd hv]
        exact lookupL_insertL_ne _ _ _ _ hb
      | true =>
        rw [writeback_dirty_valid_eq s a rest info hq hl hd hv]
        exact lookupL_insertL_ne _ _ _ _ hb

/-- C4: popping a resident head.  Clean: discard only, charge `cache_hits`.
Dirty: store the bytes (fresh key exactly when the region had none), clear
`dirty`, discard, charge `writebacks`.  In all cases the head is popped and
its `cached` flag cleared. -/
theorem writeback_resident_spec (s : FsState) (a : Nat) (rest : List Nat)
    (info : Info) (hq : s.cache = a :: rest) (hl : lookupL s.alloc a = some info) :
    writeback s =
      (if info.dirty = true then
        (if info.valid = true then
          { s with cache := rest,
                   alloc := insertL s.alloc a
                     { info with cached := false, dirty := false },
                   prot := insertL s.prot a PROT_NONE,
                   store := insertL s.store info.rid (a, info.size),
                   stats := { s.stats with writebacks := s.stats.writebacks + 1 },
                   events := Event.eprotect a (sizealign info.size) PROT_NONE ::
                             Event.ediscard a (sizealign info.size) ::
                             Event.edbputAt info.rid a info.size ::
                             Event.eprotect a (sizealign info.size) PROT_READ ::
                             s.events }
         else
          { s with cache := rest,
                   alloc := insertL s.alloc a
                     { info with rid := ⟨s.nextPg, 0⟩, cached := false, dirty := false },
                   prot := insertL s.prot a PROT_NONE,
                   store := insertL s.store ⟨s.nextPg, 0⟩ (a, info.size),
                   nextPg := s.nextPg + 1,
                   stats := { s.stats with writebacks := s.stats.writebacks + 1 },
                   events := Event.eprotect a (sizealign info.size) PROT_NONE ::
                             Event.ediscard a (sizealign info.size) ::
                             Event.edbputNew ⟨s.nextPg, 0⟩ a info.size ::
                             Event.eprotect a (sizealign info.size) PROT_READ ::
                             s.events })
       else
        { s with cache := rest,
                 alloc := insertL s.alloc a { info with cached := false },
                 prot := insertL s.prot a PROT_NONE,
                 stats := { s.stats with cache_hits := s.stats.cache_hits + 1 },
                 events := Event.eprotect a (sizealign info.size) PROT_NONE ::
                           Event.ediscard a (sizealign info.size) :: s.events }) := by
  cases hd : info.dirty with
  | false =>
    rw [if_neg Bool.false_ne_true]
    have h := writeback_clean_eq s a rest info hq hl hd
    rw [hd] at h
    exact h
  | true =>
    rw [if_pos rfl]
    cases hv : info.valid with
    | false =>
      rw [if_neg Bool.false_ne_true]
      exact writeback_dirty_invalid_eq s a rest info hq hl hd hv
    | true =>
      rw [if_pos rfl]
      exact writeback_dirty_valid_eq s a rest info hq hl hd hv

/-- A state with a dirty, key-less resident head, for the C4 witness. -/
def c4State : FsState :=
  { initState 4 with alloc := [(4096, ⟨invalid_handle, 5, true, true⟩)],
                     cache := [4096, 8192] }

/-- C4 witness: the theorem applied to `c4State`. -/
theorem writeback_resident_spec_witness :
    (writeback c4State).cache = [8192] ∧
    lookupL (writeback c4State).alloc 4096 = some ⟨⟨1, 0⟩, 5, false, false⟩ ∧
    (writeback c4State).stats.writebacks = 1 ∧
    (writeback c4State).stats.cache_hits = 0 := by
  have h := writeback_resident_spec c4State 4096 [8192] ⟨invalid_handle, 5, true, true⟩
    (by decide) (by decide)
  rw [h]
  decide

/-- Write fault on a resident region (regardless of `dirty`): mark dirty,
promote the protection, touch nothing else. -/
theorem handler_hit_eq (sig va : Nat) (ctx : MContext) (s : FsState)
    (info : Info) (hl : lookupL s.alloc (pagealign va) = some info)
    (hv : verify (pagealign va) va info.size = true)
    (hw : ctx.err &&& 2 ≠ 0) (hc : info.cached = true) :
    handler sig va ctx s =
      { s with alloc := insertL s.alloc (pagealign va) { info with dirty := true },
               prot := insertL s.prot (pagealign va) (PROT_READ ||| PROT_WRITE),
               events := Event.eprotect (pagealign va) (sizealign info.size)
                           (PROT_READ ||| PROT_WRITE) :: s.events } := by
  unfold handler
  simp [hl, hv, get_mprotect_flags, hw, hc, protectO, PROT_READ, PROT_WRITE]

/-- C6: a write fault on a resident clean region sets `dirty`, promotes the
protection to READ|WRITE, and changes nothing else: no store I/O, no queue
change, no statistics change. -/
theorem handler_write_hit_promotes (sig va : Nat) (ctx : MContext) (s : FsState)
    (info : Info) (hl : lookupL s.alloc (pagealign va) = some info)
    (hv : verify (pagealign va) va info.size = true)
    (hw : ctx.err &&& 2 ≠ 0) (hc : info.cached = true) (hd : info.dirty = false) :
    handler sig va ctx s =
      { s with alloc := insertL s.alloc (pagealign va) { info with dirty := true },
               prot := insertL s.prot (pagealign va) (PROT_READ ||| PROT_WRITE),
               events := Event.eprotect (pagealign va) (sizealign info.size)
                           (PROT_READ ||| PROT_WRITE) :: s.events } :=
  handler_hit_eq sig va ctx s info hl hv hw hc

/-- A state with a resident clean region for the C6 witness. -/
def c6State : FsState :=
  { initState 4 with alloc := [(4096, ⟨invalid_handle, 100, false, true⟩)],
                     cache := [4096] }

/-- C6 witness: a write fault at va = 4100 inside region 4096. -/
theorem handler_write_hit_promotes_witness :
    handler 11 4100 ⟨2, []⟩ c6State =
      { c6State with
          alloc := insertL c6State.alloc (pagealign 4100)
            { (⟨invalid_handle, 100, false, true⟩ : Info) with dirty := true },
          prot := insertL c6State.prot (pagealign 4100) (PROT_READ ||| PROT_WRITE),
          events := Event.eprotect (pagealign 4100) (sizealign 100)
                      (PROT_READ ||| PROT_WRITE) :: c6State.events } :=
  handler_write_hit_promotes 11 4100 ⟨2, []⟩ c6State ⟨invalid_handle, 100, false, true⟩
    (by decide) (by decide) (by decide) (by decide) (by decide)

theorem emptyInfo_valid_false (size : Nat) : (Info.emptyInfo size).valid = false := by
  simp [Info.emptyInfo, Info.valid]

/-- The state after the `mmap` + table insert + queue push of `fsalloc`,
before the capacity check. -/
def pushState (addr size : Nat) (s : FsState) : FsState :=
  { s with prot := insertL s.prot addr PROT_NONE,
           events := Event.emmap addr size :: s.events,
           alloc := insertL s.alloc addr (Info.emptyInfo size),
           cache := s.cache ++ [addr] }

theorem fsalloc_eq (addr size : Nat) (s : FsState) :
    fsalloc addr size s =
      (addr,
       if s.capacity < s.cache.length + 1 then
         { writeback (pushState addr size s) with stats :=
             { (writeback (pushState addr size s)).stats with
                 allocs := (writeback (pushState addr size s)).stats.allocs + 1 } }
       else
         { pushState addr size s with stats :=
             { (pushState addr size s).stats with
                 allocs := (pushState addr size s).stats.allocs + 1 } }) := by
  unfold fsalloc cacheRegion pushState
  by_cases hcond : s.capacity < s.cache.length + 1
  · simp [List.length_append, hcond]
  · simp [List.length_append, hcond]

/-- C7: `allocate(size)` inserts a fresh entry `{key: none, size, dirty: false,
cached: true}`, appends the base to the queue tail (evicting the head first
when the queue was full), bumps `allocs`, and returns the base. -/
theorem fsalloc_spec (addr size : Nat) (s : FsState) (hsz : 0 < size)
    (hfresh : lookupL s.alloc addr = none) (hnc : addr ∉ s.cache)
    (hcap : 1 ≤ s.capacity) (hlen : s.cache.length ≤ s.capacity) :
    (fsalloc addr size s).1 = addr ∧
    lookupL (fsalloc addr size s).2.alloc addr = some (Info.emptyInfo size) ∧
    (Info.emptyInfo size).valid = false ∧
    Info.emptyInfo size = ⟨invalid_handle, size, false, true⟩ ∧
    (fsalloc addr size s).2.stats.allocs = s.stats.allocs + 1 ∧
    (fsalloc addr size s).2.cache =
      (if s.capacity ≤ s.cache.length then s.cache.tail else s.cache) ++ [addr] := by
  rw [fsalloc_eq]
  by_cases hcase : s.capacity ≤ s.cache.length
  · have hlen2 : s.cache.length = s.capacity := Nat.le_antisymm hlen hcase
    obtain ⟨h0, t0, hct⟩ : ∃ h0 t0, s.cache = h0 :: t0 := by
      cases hc0 : s.cache with
      | nil => rw [hc0] at hlen2; simp at hlen2; omega
      | cons x xs => exact ⟨x, xs, rfl⟩
    have hcond : s.capacity < s.cache.length + 1 := by omega
    have hne : addr ≠ h0 := by
      intro he
      exact hnc (he ▸ (hct ▸ List.mem_cons_self h0 t0))
    have hq2 : (pushState addr size s).cache = h0 :: (t0 ++ [addr]) := by
      simp [pushState, hct]
    rw [if_pos hcond, if_pos hcase]
    refine ⟨rfl, ?_, emptyInfo_valid_false size, rfl, ?_, ?_⟩
    · show lookupL (writeback (pushState addr size s)).alloc addr = _
      rw [writeback_lookup_ne _ h0 addr (t0 ++ [addr]) hq2 hne]
      exact lookupL_insertL_self _ _ _
    · show (writeback (pushState addr size s)).stats.allocs + 1 = _
      rw [(writeback_frame (pushState addr size s)).2.2.1]
      rfl
    · show (writeback (pushState addr size s)).cache = _
      rw [(writeback_frame (pushState addr size s)).1, hq2, hct]
      rfl
  · have hcond : ¬ s.capacity < s.cache.length + 1 := by omega
    rw [if_neg hcond, if_neg hcase]
    exact ⟨rfl, lookupL_insertL_self _ _ _, emptyInfo_valid_false size, rfl, rfl, rfl⟩

/-- C7 witness: allocating 24 bytes at fresh base 8192 in a small state. -/
def c7State : FsState :=
  { initState 2 with cache := [4096],
                     alloc := [(4096, ⟨invalid_handle, 8, false, true⟩)] }

theorem fsalloc_spec_witness :
    (fsalloc 8192 24 c7State).1 = 8192 ∧
    lookupL (fsalloc 8192 24 c7State).2.alloc 8192 = some (Info.emptyInfo 24) ∧
    (Info.emptyInfo 24).valid = false ∧
    Info.emptyInfo 24 = ⟨invalid_handle, 24, false, true⟩ ∧
    (fsalloc 8192 24 c7State).2.stats.allocs = c7State.stats.allocs + 1 ∧
    (fsalloc 8192 24 c7State).2.cache =
      (if c7State.capacity ≤ c7State.cache.length then c7State.cache.tail
       else c7State.cache) ++ [8192] :=
  fsalloc_spec 8192 24 c7State (by decide) (by decide) (by decide) (by decide) (by decide)

/-! ### Claim C5: the Resident Queue never exceeds its capacity -/

theorem cacheRegion_queue (a : Nat) (s : FsState) (h : s.cache.length ≤ s.capacity) :
    (cacheRegion a s).cache.length ≤ s.capacity ∧
    (cacheRegion a s).capacity = s.capacity := by
  unfold cacheRegion
  by_cases hc : s.capacity < (s.cache ++ [a]).length
  · rw [if_pos hc]
    obtain ⟨h1, h2, -, -⟩ := writeback_frame { s with cache := s.cache ++ [a] }
    refine ⟨?_, h2⟩
    rw [h1]
    simp only [List.length_tail, List.length_append, List.length_cons,
      List.length_nil]
    omega
  · rw [if_neg hc]
    refine ⟨?_, rfl⟩
    simp only [List.length_append, List.length_cons, List.length_nil] at hc ⊢
    omega

theorem materialize_queue (r : Nat) (info : Info) (f : Nat) (s : FsState)
    (h : s.cache.length ≤ s.capacity) :
    (materialize r info f s).cache.length ≤ s.capacity ∧
    (materialize r info f s).capacity = s.capacity := by
  unfold materialize
  by_cases hv : info.valid = true
  · rw [if_pos hv]
    exact cacheRegion_queue r _ h
  · rw [if_neg hv]
    exact cacheRegion_queue r _ h

theorem handler_queue (sig va : Nat) (ctx : MContext) (s : FsState)
    (h : s.cache.length ≤ s.capacity) :
    (handler sig va ctx s).cache.length ≤ s.capacity ∧
    (handler sig va ctx s).capacity = s.capacity := by
  unfold handler
  cases hl : lookupL s.alloc (pagealign va) with
  | none =>
    simp only [hl]
    exact ⟨h, trivial⟩
  | some info =>
    simp only [hl]
    by_cases hvf : verify (pagealign va) va info.size = true
    · rw [if_pos hvf]
      by_cases hw : get_mprotect_flags ctx &&& PROT_WRITE ≠ 0
      · rw [if_pos hw]
        by_cases hc : info.cached = true
        · rw [show ({ info with dirty := true } : Info).cached = info.cached from rfl,
            if_pos hc]
          exact ⟨h, rfl⟩
        · rw [show ({ info with dirty := true } : Info).cached = info.cached from rfl,
            if_neg hc]
          exact materialize_queue _ _ _ _ h
      · rw [if_neg hw]
        exact materialize_queue _ _ _ _ h
    · rw [if_neg hvf]
      by_cases hw : get_mprotect_flags ctx &&& PROT_WRITE ≠ 0
      · rw [if_pos hw]
        by_cases hc : info.cached = true
        · rw [show ({ info with dirty := true } : Info).cached = info.cached from rfl,
            if_pos hc]
          exact ⟨h, rfl⟩
        · rw [show ({ info with dirty := true } : Info).cached = info.cached from rfl,
            if_neg hc]
          exact materialize_queue _ _ _ _ h
      · rw [if_neg hw]
        exact materialize_queue _ _ _ _ h

theorem step_queue (o : Op) (s : FsState) (h : s.cache.length ≤ s.capacity) :
    (step o s).cache.length ≤ s.capacity ∧ (step o s).capacity = s.capacity := by
  cases o with
  | opAlloc a sz =>
    show ((fsalloc a sz s).2.cache.length ≤ s.capacity) ∧ _
    unfold fsalloc
    exact cacheRegion_queue a _ h
  | opFree a =>
    show (fsfree a s).cache.length ≤ s.capacity ∧ (fsfree a s).capacity = s.capacity
    unfold fsfree
    cases hl : lookupL s.alloc a with
    | none =>
      simp only [hl]
      exact ⟨h, trivial⟩
    | some info =>
      simp only [hl]
      exact ⟨h, rfl⟩
  | opFault sig va ctx => exact handler_queue sig va ctx s h
  | opWb =>
    obtain ⟨h1, h2, -, -⟩ := writeback_frame s
    refine ⟨?_, h2⟩
    show (writeback s).cache.length ≤ s.capacity
    rw [h1]
    simp only [List.length_tail]
    omega

theorem run_queue (ops : List Op) (s : FsState) (h : s.cache.length ≤ s.capacity) :
    (run ops s).cache.length ≤ s.capacity ∧ (run ops s).capacity = s.capacity := by
  induction ops generalizing s with
  | nil => exact ⟨h, rfl⟩
  | cons o rest ih =>
    obtain ⟨h1, h2⟩ := step_queue o s h
    obtain ⟨h3, h4⟩ := ih (step o s) (by rw [h2]; exact h1)
    rw [h2] at h3 h4
    exact ⟨h3, h4⟩

/-- C5: starting from any state whose Resident Queue respects the capacity
(in particular the initial state), every sequence of mutator operations keeps
`|ResidentQueue| ≤ capacity` at every quiescent point, and the transient state
inside an admission (right after the `push_back`, before the write-back that
`cacheRegion` may run) has `|ResidentQueue| ≤ capacity + 1`. -/
theorem resident_queue_bounded (ops : List Op) (s : FsState)
    (h : s.cache.length ≤ s.capacity) :
    (run ops s).cache.length ≤ s.capacity ∧
    (∀ a, ((run ops s).cache ++ [a]).length ≤ s.capacity + 1) := by
  obtain ⟨h1, h2⟩ := run_queue ops s h
  refine ⟨h1, fun a => ?_⟩
  simp only [List.length_append, List.length_cons, List.length_nil]
  omega

/-- C5 witness: a concrete five-operation run on capacity 1. -/
theorem resident_queue_bounded_witness :
    ((run [Op.opAlloc 4096 8, Op.opFault 11 4096 ⟨2, []⟩, Op.opAlloc 8192 8,
           Op.opWb, Op.opFree 4096] (initState 1)).cache.length ≤ 1 ∧
     (∀ a, ((run [Op.opAlloc 4096 8, Op.opFault 11 4096 ⟨2, []⟩, Op.opAlloc 8192 8,
           Op.opWb, Op.opFree 4096] (initState 1)).cache ++ [a]).length ≤ 1 + 1)) :=
  resident_queue_bounded _ (initState 1) (by decide)

/-! ### Claim C8: the alloc-then-write pattern -/

/-- A fault context with the write bit (mask 0x2) set. -/
def wctx : MContext := ⟨2, []⟩

/-- Page-aligned, pairwise distinct mmap results for the P2 scenario. -/
def baseOf (i : Nat) : Nat := (i + 1) * kPagesize

/-- One P2 round: allocate region `i`, then write its first byte (the write
faults and is handled). -/
def roundP2 (sz : Nat → Nat) (s : FsState) (i : Nat) : FsState :=
  handler 11 (baseOf i) wctx (fsalloc (baseOf i) (sz i) s).2

/-- `N` such rounds from a fresh state with capacity `C`. -/
def runP2 (sz : Nat → Nat) (C N : Nat) : FsState :=
  (List.range N).foldl (roundP2 sz) (initState C)

theorem pagealign_baseOf (i : Nat) : pagealign (baseOf i) = baseOf i := by
  unfold pagealign baseOf kPagesize
  rw [pagealignP_eq, Nat.mul_div_cancel _ (Nat.pos_pow_of_pos kPageshift (by omega))]

theorem baseOf_ne (i j : Nat) (h : i ≠ j) : baseOf i ≠ baseOf j := by
  unfold baseOf
  intro he
  have hp : 0 < kPagesize := by decide
  have := Nat.eq_of_mul_eq_mul_right hp he
  omega

theorem verify_self (r size : Nat) : verify r r size = true := by
  unfold verify toInt32 toUInt32c
  norm_num

/-- A dirty queue head charges `writebacks` and not `cache_hits`, whether or
not it already has a store key. -/
theorem writeback_dirty_stats (s : FsState) (a : Nat) (rest : List Nat)
    (info : Info) (hq : s.cache = a :: rest) (hl : lookupL s.alloc a = some info)
    (hd : info.dirty = true) :
    (writeback s).stats.writebacks = s.stats.writebacks + 1 ∧
    (writeback s).stats.cache_hits = s.stats.cache_hits := by
  cases hv : info.valid with
  | true =>
    rw [writeback_dirty_valid_eq s a rest info hq hl hd hv]
    exact ⟨rfl, rfl⟩
  | false =>
    rw [writeback_dirty_invalid_eq s a rest info hq hl hd hv]
    exact ⟨rfl, rfl⟩

/-- The inductive invariant of the P2 scenario after `k` rounds: the queue
holds the last `min k C` bases in order, each resident region is dirty and
cached, regions not yet allocated are absent, and the counters read
`allocs = k`, `cache_hits = 0`, `writebacks = k - C` (truncated). -/
structure InvP2 (sz : Nat → Nat) (C k : Nat) (s : FsState) : Prop where
  cacheEq : s.cache = (List.range' (k - C) (min k C)).map baseOf
  capEq : s.capacity = C
  lookRes : ∀ i, k - C ≤ i → i < k →
    ∃ info : Info, lookupL s.alloc (baseOf i) = some info ∧
      info.dirty = true ∧ info.cached = true
  lookNew : ∀ i, k ≤ i → lookupL s.alloc (baseOf i) = none
  allocsEq : s.stats.allocs = k
  hitsEq : s.stats.cache_hits = 0
  wbEq : s.stats.writebacks = k - C

/-- Phase B of a round: the write fault on the freshly allocated region is a
strict hit. -/
theorem handler_roundB (k szk : Nat) (t : FsState)
    (hl : lookupL t.alloc (baseOf k) = some (Info.emptyInfo szk)) :
    handler 11 (baseOf k) wctx t =
      { t with alloc := insertL t.alloc (baseOf k)
                 { Info.emptyInfo szk with dirty := true },
               prot := insertL t.prot (baseOf k) (PROT_READ ||| PROT_WRITE),
               events := Event.eprotect (baseOf k) (sizealign szk)
                           (PROT_READ ||| PROT_WRITE) :: t.events } := by
  have h := handler_hit_eq 11 (baseOf k) wctx t (Info.emptyInfo szk)
    (by rw [pagealign_baseOf]; exact hl)
    (by rw [pagealign_baseOf]; exact verify_self _ _)
    (by decide) rfl
  rw [pagealign_baseOf] at h
  exact h

theorem roundP2_step (sz : Nat → Nat) (C k : Nat) (hC : 1 ≤ C) (s : FsState)
    (h : InvP2 sz C k s) : InvP2 sz C (k + 1) (roundP2 sz s k) := by
  obtain ⟨hc, hcap, hres, hnew, hal, hh, hwb⟩ := h
  have hlen : s.cache.length = min k C := by rw [hc]; simp
  unfold roundP2
  rcases Nat.lt_or_ge k C with hk | hk
  · -- no eviction: the queue is not yet full
    have hcond : ¬ s.capacity < s.cache.length + 1 := by
      rw [hcap, hlen, Nat.min_eq_left (Nat.le_of_lt hk)]
      omega
    have hA : (fsalloc (baseOf k) (sz k) s).2 =
        { pushState (baseOf k) (sz k) s with stats :=
            { (pushState (baseOf k) (sz k) s).stats with
                allocs := (pushState (baseOf k) (sz k) s).stats.allocs + 1 } } := by
      simp only [fsalloc_eq]
      rw [if_neg hcond]
    rw [hA, handler_roundB k (sz k) _ (by
      show lookupL (insertL s.alloc (baseOf k) (Info.emptyInfo (sz k))) (baseOf k) = _
      exact lookupL_insertL_self _ _ _)]
    refine ⟨?_, ?_, ?_, ?_, ?_, ?_, ?_⟩
    · show s.cache ++ [baseOf k] = _
      rw [hc, Nat.sub_eq_zero_of_le (Nat.le_of_lt hk), Nat.sub_eq_zero_of_le hk,
        Nat.min_eq_left (Nat.le_of_lt hk), Nat.min_eq_left hk, List.range'_concat]
      simp
    · show s.capacity = C
      exact hcap
    · intro i hi1 hi2
      by_cases hik : i = k
      · subst hik
        exact ⟨{ Info.emptyInfo (sz i) with dirty := true },
          lookupL_insertL_self _ _ _, rfl, rfl⟩
      · have hne : baseOf i ≠ baseOf k := baseOf_ne i k hik
        obtain ⟨info, hli, hd, hcch⟩ := hres i (by omega) (by omega)
        refine ⟨info, ?_, hd, hcch⟩
        show lookupL (insertL (insertL s.alloc (baseOf k) (Info.emptyInfo (sz k)))
          (baseOf k) { Info.emptyInfo (sz k) with dirty := true }) (baseOf i) = _
        rw [lookupL_insertL_ne _ _ _ _ hne, lookupL_insertL_ne _ _ _ _ hne]
        exact hli
    · intro i hi
      have hne : baseOf i ≠ baseOf k := baseOf_ne i k (by omega)
      show lookupL (insertL (insertL s.alloc (baseOf k) (Info.emptyInfo (sz k)))
        (baseOf k) { Info.emptyInfo (sz k) with dirty := true }) (baseOf i) = none
      rw [lookupL_insertL_ne _ _ _ _ hne, lookupL_insertL_ne _ _ _ _ hne]
      exact hnew i (by omega)
    · show s.stats.allocs + 1 = k + 1
      rw [hal]
    · show s.stats.cache_hits = 0
      exact hh
    · show s.stats.writebacks = k + 1 - C
      rw [hwb]
      omega
  · -- eviction: the queue is full, the oldest (dirty) region is written back
    have hmin : min k C = C := Nat.min_eq_right hk
    have hcond : s.capacity < s.cache.length + 1 := by
      rw [hcap, hlen, hmin]
      omega
    have hA : (fsalloc (baseOf k) (sz k) s).2 =
        { writeback (pushState (baseOf k) (sz k) s) with stats :=
            { (writeback (pushState (baseOf k) (sz k) s)).stats with
                allocs :=
                  (writeback (pushState (baseOf k) (sz k) s)).stats.allocs + 1 } } := by
      simp only [fsalloc_eq]
      rw [if_pos hcond]
    have hCm : C = (C - 1) + 1 := by omega
    have hrange : List.range' (k - C) C = (k - C) :: List.range' (k - C + 1) (C - 1) := by
      rw [congrArg (fun n => List.range' (k - C) n) hCm, List.range'_succ]
    have hcachP : (pushState (baseOf k) (sz k) s).cache =
        baseOf (k - C) :: ((List.range' (k - C + 1) (C - 1)).map baseOf ++ [baseOf k]) := by
      show s.cache ++ [baseOf k] = _
      rw [hc, hmin, hrange]
      simp
    have hkck : k - C < k := by omega
    have hneHK : baseOf k ≠ baseOf (k - C) := baseOf_ne k (k - C) (by omega)
    obtain ⟨infoH, hliH, hdH, hcchH⟩ := hres (k - C) (Nat.le_refl _) hkck
    have hliHP : lookupL (pushState (baseOf k) (sz k) s).alloc (baseOf (k - C)) =
        some infoH := by
      show lookupL (insertL s.alloc (baseOf k) (Info.emptyInfo (sz k)))
        (baseOf (k - C)) = _
      rw [lookupL_insertL_ne _ _ _ _ hneHK.symm]
      exact hliH
    have hlookAk : lookupL (writeback (pushState (baseOf k) (sz k) s)).alloc
        (baseOf k) = some (Info.emptyInfo (sz k)) := by
      rw [writeback_lookup_ne _ _ _ _ hcachP hneHK]
      show lookupL (insertL s.alloc (baseOf k) (Info.emptyInfo (sz k))) (baseOf k) = _
      exact lookupL_insertL_self _ _ _
    obtain ⟨hfr1, hfr2, hfr3, -⟩ := writeback_frame (pushState (baseOf k) (sz k) s)
    obtain ⟨hds1, hds2⟩ :=
      writeback_dirty_stats (pushState (baseOf k) (sz k) s) (baseOf (k - C)) _
        infoH hcachP hliHP hdH
    rw [hA, handler_roundB k (sz k) _ (by
      show lookupL (writeback (pushState (baseOf k) (sz k) s)).alloc (baseOf k) = _
      exact hlookAk)]
    refine ⟨?_, ?_, ?_, ?_, ?_, ?_, ?_⟩
    · show (writeback (pushState (baseOf k) (sz k) s)).cache = _
      rw [hfr1, hcachP]
      have hmin2 : min (k + 1) C = C := Nat.min_eq_right (by omega)
      have hrange2 : List.range' (k + 1 - C) C =
          List.range' (k - C + 1) (C - 1) ++ [k] := by
        have h1 : k + 1 - C = k - C + 1 := by omega
        have h2 : k - C + 1 + 1 * (C - 1) = k := by
          simp only [Nat.one_mul]
          omega
        rw [h1, congrArg (fun n => List.range' (k - C + 1) n) hCm, List.range'_concat,
          h2]
      rw [hmin2, hrange2]
      simp
    · show (writeback (pushState (baseOf k) (sz k) s)).capacity = C
      rw [hfr2]
      exact hcap
    · intro i hi1 hi2
      by_cases hik : i = k
      · subst hik
        exact ⟨{ Info.emptyInfo (sz i) with dirty := true },
          lookupL_insertL_self _ _ _, rfl, rfl⟩
      · have hne : baseOf i ≠ baseOf k := baseOf_ne i k hik
        have hneH : baseOf i ≠ baseOf (k - C) := baseOf_ne i (k - C) (by omega)
        obtain ⟨info, hli, hd, hcch⟩ := hres i (by omega) (by omega)
        refine ⟨info, ?_, hd, hcch⟩
        show lookupL (insertL (writeback (pushState (baseOf k) (sz k) s)).alloc
          (baseOf k) { Info.emptyInfo (sz k) with dirty := true }) (baseOf i) = _
        rw [lookupL_insertL_ne _ _ _ _ hne,
          writeback_lookup_ne _ _ _ _ hcachP hneH]
        show lookupL (insertL s.alloc (baseOf k) (Info.emptyInfo (sz k)))
          (baseOf i) = _
        rw [lookupL_insertL_ne _ _ _ _ hne]
        exact hli
    · intro i hi
      have hne : baseOf i ≠ baseOf k := baseOf_ne i k (by omega)
      have hneH : baseOf i ≠ baseOf (k - C) := baseOf_ne i (k - C) (by omega)
      show lookupL (insertL (writeback (pushState (baseOf k) (sz k) s)).alloc
        (baseOf k) { Info.emptyInfo (sz k) with dirty := true }) (baseOf i) = none
      rw [lookupL_insertL_ne _ _ _ _ hne,
        writeback_lookup_ne _ _ _ _ hcachP hneH]
      show lookupL (insertL s.alloc (baseOf k) (Info.emptyInfo (sz k)))
        (baseOf i) = none
      rw [lookupL_insertL_ne _ _ _ _ hne]
      exact hnew i (by omega)
    · show (writeback (pushState (baseOf k) (sz k) s)).stats.allocs + 1 = k + 1
      rw [hfr3]
      show s.stats.allocs + 1 = k + 1
      rw [hal]
    · show (writeback (pushState (baseOf k) (sz k) s)).stats.cache_hits = 0
      rw [hds2]
      exact hh
    · show (writeback (pushState (baseOf k) (sz k) s)).stats.writebacks = k + 1 - C
      rw [hds1]
      show s.stats.writebacks + 1 = k + 1 - C
      rw [hwb]
      omega

theorem runP2_inv (sz : Nat → Nat) (C : Nat) (hC : 1 ≤ C) (N : Nat) :
    InvP2 sz C N (runP2 sz C N) := by
  induction N with
  | zero =>
    refine ⟨?_, rfl, ?_, ?_, rfl, rfl, by show (0 : Nat) = 0 - C; omega⟩
    · simp [runP2, initState]
    · intro i hi1 hi2
      omega
    · intro i hi
      rfl
  | succ n ih =>
    have hstep : runP2 sz C (n + 1) = roundP2 sz (runP2 sz C n) n := by
      unfold runP2
      rw [List.range_succ, List.foldl_append]
      rfl
    rw [hstep]
    exact roundP2_step sz C n hC _ ih

/-- C8: `N` allocations each immediately followed by one write, starting from
`init` with capacity `C ≥ 1`, leave the Resident Queue with `min N C` entries
and `writebacks + cache_hits = N - C` (truncated subtraction, i.e.
`max(0, N - C)`; all the charged evictions are genuine write-backs). -/
theorem allocs_writes_pattern (sz : Nat → Nat) (C N : Nat) (hC : 1 ≤ C) :
    (runP2 sz C N).cache.length = min N C ∧
    (runP2 sz C N).stats.writebacks + (runP2 sz C N).stats.cache_hits = N - C := by
  obtain ⟨hc, -, -, -, -, hh, hwb⟩ := runP2_inv sz C hC N
  constructor
  · rw [hc]
    simp
  · rw [hh, hwb]
    omega

/-- C8 witness: three one-byte rounds at capacity 1. -/
theorem allocs_writes_pattern_witness :
    (runP2 (fun _ => 1) 1 3).cache.length = min 3 1 ∧
    (runP2 (fun _ => 1) 1 3).stats.writebacks +
      (runP2 (fun _ => 1) 1 3).stats.cache_hits = 3 - 1 :=
  allocs_writes_pattern (fun _ => 1) 1 3 (by decide)
